import Mathlib

/-!
# Verification of the nano-hairstyle front-end client logic

Shallow embedding of the logic in `frontend/src/App.jsx`: prompt
normalization (`ensureFaceSuffix`), the newline-delimited JSON stream
decoder (`fetchStreamResults` / `processLine`), result ordering
(`orderedResults`, `appendResult`) and the request dispatcher
(`handleSubmit` / `fetchSingleResult`).

Strings are modelled as `List Char`.  Platform primitives used by the
source (`String.prototype.trim`, `String.prototype.endsWith`, `Array.sort`,
`JSON.parse`, `Number`, JS truthiness) are modelled explicitly below; each
model carries a doc comment stating its scope.
-/

namespace NanoHairstyle

/-- Model of the whitespace class used by JS `String.prototype.trim`
(ASCII whitespace plus NBSP and BOM; the further Unicode space
characters are irrelevant to the wire format and omitted). -/
def isJsWs (c : Char) : Bool :=
  c == ' ' || c == '\t' || c == '\n' || c == '\r' ||
  c.val == 11 || c.val == 12 || c.val == 0xA0 || c.val == 0xFEFF

/-- Model of JS `String.prototype.trim`: drop leading and trailing
whitespace. -/
def jsTrim (s : List Char) : List Char :=
  (((s.dropWhile isJsWs).reverse.dropWhile isJsWs)).reverse

/-- `FACE_SUFFIX` from App.jsx line 22. -/
def FACE_SUFFIX : List Char := " keep my face same".data

/-- `ensureFaceSuffix` from App.jsx lines 89–95: trim the input; an empty
trim yields the empty string; otherwise append `FACE_SUFFIX` unless the
trimmed text already ends with it (`String.prototype.endsWith` is
modelled by `List.isSuffixOf`). -/
def ensureFaceSuffix (text : List Char) : List Char :=
  let trimmed := jsTrim text
  if trimmed = [] then []
  else if FACE_SUFFIX.isSuffixOf trimmed then trimmed
  else trimmed ++ FACE_SUFFIX

/-! ## Basic trim lemmas -/

theorem dropWhile_head_false {p : Char → Bool} {l t : List Char} {c : Char}
    (h : l.dropWhile p = c :: t) : p c = false := by
  induction l with
  | nil => simp at h
  | cons a l ih =>
    by_cases hp : p a
    · rw [List.dropWhile_cons_of_pos hp] at h
      exact ih h
    · rw [List.dropWhile_cons_of_neg hp] at h
      cases h
      simpa using hp

theorem dropWhile_getLast? {p : Char → Bool} {l : List Char}
    (h : l.dropWhile p ≠ []) : (l.dropWhile p).getLast? = l.getLast? := by
  induction l with
  | nil => simp at h
  | cons a l ih =>
    by_cases hp : p a
    · rw [List.dropWhile_cons_of_pos hp] at h ⊢
      have hl : l ≠ [] := by
        rintro rfl; simp at h
      rw [ih h]
      cases l with
      | nil => exact absurd rfl hl
      | cons b u => rw [List.getLast?_cons_cons]
    · rw [List.dropWhile_cons_of_neg hp]

theorem dropWhile_eq_self_of_head {p : Char → Bool} {c : Char} {t : List Char}
    (h : p c = false) : (c :: t).dropWhile p = c :: t := by
  rw [List.dropWhile_cons_of_neg (by simp [h])]

/-- If a list starts and ends with a non-whitespace character, `jsTrim`
leaves it unchanged. -/
theorem jsTrim_eq_self {c : Char} {t : List Char} {d : Char}
    (hc : isJsWs c = false) (hd : (c :: t).getLast? = some d)
    (hdw : isJsWs d = false) : jsTrim (c :: t) = c :: t := by
  unfold jsTrim
  rw [dropWhile_eq_self_of_head hc]
  have hrev : (c :: t).reverse = d :: ((c :: t).reverse.tail) := by
    have h1 : (c :: t).reverse.head? = some d := by
      rw [List.head?_reverse]; exact hd
    cases hr : (c :: t).reverse with
    | nil => rw [hr] at h1; simp at h1
    | cons x xs =>
      rw [hr] at h1
      simp only [List.head?_cons, Option.some.injEq] at h1
      simp [h1]
  rw [hrev, dropWhile_eq_self_of_head hdw, ← hrev, List.reverse_reverse]

/-- The head of a nonempty `jsTrim` result is non-whitespace. -/
theorem jsTrim_head_false {s : List Char} {c : Char} {t : List Char}
    (h : jsTrim s = c :: t) : isJsWs c = false := by
  unfold jsTrim at h
  have h' : ((s.dropWhile isJsWs).reverse.dropWhile isJsWs).getLast? = some c := by
    rw [← List.head?_reverse, h]
    rfl
  have hne : (s.dropWhile isJsWs).reverse.dropWhile isJsWs ≠ [] := by
    intro hnil; rw [hnil] at h'; simp at h'
  rw [dropWhile_getLast? hne, List.getLast?_reverse] at h'
  cases hdw : s.dropWhile isJsWs with
  | nil => rw [hdw] at h'; simp at h'
  | cons a l =>
    rw [hdw] at h'
    simp only [List.head?_cons, Option.some.injEq] at h'
    subst h'
    exact dropWhile_head_false hdw

/-- The last element of a nonempty `jsTrim` result is non-whitespace. -/
theorem jsTrim_getLast_false {s : List Char} {d : Char}
    (h : (jsTrim s).getLast? = some d) : isJsWs d = false := by
  unfold jsTrim at h
  rw [List.getLast?_reverse] at h
  cases hdw : (s.dropWhile isJsWs).reverse.dropWhile isJsWs with
  | nil => rw [hdw] at h; simp at h
  | cons a l =>
    rw [hdw] at h
    simp only [List.head?_cons, Option.some.injEq] at h
    subst h
    exact dropWhile_head_false hdw

/-- `jsTrim` applied to an already-trimmed nonempty string is the
identity. -/
theorem jsTrim_jsTrim (s : List Char) : jsTrim (jsTrim s) = jsTrim s := by
  cases h : jsTrim s with
  | nil => simp [jsTrim]
  | cons c t =>
    have hc : isJsWs c = false := jsTrim_head_false h
    have hne : jsTrim s ≠ [] := by rw [h]; simp
    obtain ⟨d, hd⟩ := Option.ne_none_iff_exists'.mp
      (by rwa [ne_eq, List.getLast?_eq_none_iff] : (jsTrim s).getLast? ≠ none)
    have hdw : isJsWs d = false := jsTrim_getLast_false hd
    rw [h] at hd
    exact jsTrim_eq_self hc hd hdw

theorem getLast?_append_right {l₁ l₂ : List Char} (h : l₂ ≠ []) :
    (l₁ ++ l₂).getLast? = l₂.getLast? :=
  List.getLast?_append_of_ne_nil l₁ h

theorem face_suffix_isSuffixOf_append (l : List Char) :
    FACE_SUFFIX.isSuffixOf (l ++ FACE_SUFFIX) = true :=
  List.isSuffixOf_iff_suffix.mpr (List.suffix_append l FACE_SUFFIX)

/-- Whatever it returns on input with nonempty trim, `ensureFaceSuffix`
returns a string that is already fully trimmed and ends with the
suffix. -/
theorem ensureFaceSuffix_trimmed_suffixed {s : List Char} {c : Char} {t : List Char}
    (h : jsTrim s = c :: t) :
    jsTrim (ensureFaceSuffix s) = ensureFaceSuffix s ∧
    FACE_SUFFIX.isSuffixOf (ensureFaceSuffix s) = true := by
  have hc : isJsWs c = false := jsTrim_head_false h
  unfold ensureFaceSuffix
  rw [h]
  simp only [reduceCtorEq, if_false]
  by_cases hsuf : FACE_SUFFIX.isSuffixOf (c :: t) = true
  · rw [if_pos hsuf]
    refine ⟨?_, hsuf⟩
    rw [← h, jsTrim_jsTrim]
  · rw [if_neg (by simpa using hsuf)]
    constructor
    · have hlast : (c :: t ++ FACE_SUFFIX).getLast? = some 'e' := by
        rw [getLast?_append_right (by decide)]
        decide
      have := jsTrim_eq_self (t := t ++ FACE_SUFFIX) hc
        (by rw [← List.cons_append]; exact hlast) (by decide)
      rw [← List.cons_append] at this
      exact this
    · exact face_suffix_isSuffixOf_append _

/-- **C5.** Prompt normalization is idempotent: for every input string
`s`, `ensureFaceSuffix (ensureFaceSuffix s) = ensureFaceSuffix s`. -/
theorem ensureFaceSuffix_idem (s : List Char) :
    ensureFaceSuffix (ensureFaceSuffix s) = ensureFaceSuffix s := by
  cases h : jsTrim s with
  | nil =>
    unfold ensureFaceSuffix
    rw [h]
    simp [jsTrim]
  | cons c t =>
    obtain ⟨htrim, hsuf⟩ := ensureFaceSuffix_trimmed_suffixed h
    have hne : ensureFaceSuffix s ≠ [] := by
      intro hnil
      rw [hnil] at hsuf
      revert hsuf
      decide
    show (if jsTrim (ensureFaceSuffix s) = [] then []
      else if FACE_SUFFIX.isSuffixOf (jsTrim (ensureFaceSuffix s)) then jsTrim (ensureFaceSuffix s)
      else jsTrim (ensureFaceSuffix s) ++ FACE_SUFFIX) = ensureFaceSuffix s
    rw [htrim, if_neg hne, if_pos hsuf]

/-- **C5.** Prompt normalization is idempotent: for every input string
`s`, `ensureFaceSuffix (ensureFaceSuffix s) = ensureFaceSuffix s`; in
particular `"bob cut"` normalizes to `"bob cut keep my face same"` and
normalizing that again leaves it unchanged. -/
theorem prompt_normalization_idempotent :
    (∀ s : List Char, ensureFaceSuffix (ensureFaceSuffix s) = ensureFaceSuffix s) ∧
    ensureFaceSuffix "bob cut".data = "bob cut keep my face same".data ∧
    ensureFaceSuffix "bob cut keep my face same".data = "bob cut keep my face same".data :=
  ⟨ensureFaceSuffix_idem, by decide, by decide⟩

/-- **C6 (counterexample).** The claim says an input already ending with
the suffix is returned with the suffix not appended again.  The input
`" keep my face same"` (the suffix itself) ends with the suffix, yet
`ensureFaceSuffix` trims away the suffix's own leading space, no longer
sees the suffix at the end, and appends another copy. -/
theorem ensureFaceSuffix_reappends_on_suffix_input :
    FACE_SUFFIX.isSuffixOf FACE_SUFFIX = true ∧
    ensureFaceSuffix FACE_SUFFIX = jsTrim FACE_SUFFIX ++ FACE_SUFFIX ∧
    ensureFaceSuffix FACE_SUFFIX ≠ jsTrim FACE_SUFFIX := by
  refine ⟨by decide, by decide, ?_⟩
  decide

/-- **C6 (amended).** Prompt normalization returns the empty string when
the trimmed input is empty (empty or whitespace-only input); otherwise
the result ends with the fixed literal suffix `" keep my face same"`, and
an input whose *trimmed* form already ends with the suffix is returned as
that trimmed form with the suffix not appended again. -/
theorem ensureFaceSuffix_spec (s : List Char) :
    (jsTrim s = [] → ensureFaceSuffix s = []) ∧
    (jsTrim s ≠ [] → FACE_SUFFIX.isSuffixOf (ensureFaceSuffix s) = true) ∧
    (FACE_SUFFIX.isSuffixOf (jsTrim s) = true → ensureFaceSuffix s = jsTrim s) := by
  refine ⟨?_, ?_, ?_⟩
  · intro h
    unfold ensureFaceSuffix
    rw [h]
    simp
  · intro h
    cases hc : jsTrim s with
    | nil => exact absurd hc h
    | cons c t => exact (ensureFaceSuffix_trimmed_suffixed hc).2
  · intro hsuf
    have hne : jsTrim s ≠ [] := by
      intro hnil
      rw [hnil] at hsuf
      revert hsuf
      decide
    unfold ensureFaceSuffix
    rw [if_neg hne, if_pos hsuf]

/-- Closed instance of the amended C6 statement at the concrete inputs
`"bob cut"` (suffix gets appended once) and
`"bob cut keep my face same"` (already suffixed after trimming, returned
unchanged). -/
theorem ensureFaceSuffix_spec_witness :
    (jsTrim "bob cut".data ≠ [] ∧
      FACE_SUFFIX.isSuffixOf (ensureFaceSuffix "bob cut".data) = true) ∧
    (FACE_SUFFIX.isSuffixOf (jsTrim "bob cut keep my face same".data) = true ∧
      ensureFaceSuffix "bob cut keep my face same".data =
        jsTrim "bob cut keep my face same".data) :=
  ⟨⟨by decide, (ensureFaceSuffix_spec "bob cut".data).2.1 (by decide)⟩,
   ⟨by decide, (ensureFaceSuffix_spec "bob cut keep my face same".data).2.2 (by decide)⟩⟩

/-! ## JSON values and the `JSON.parse` model

The decoder calls the platform's `JSON.parse` on each line.  The wire
contract (spec §6) sends flat JSON objects whose values are strings and
integers, e.g. `{"index": 0, "image_base64": "QQ=="}` or
`{"error": "quota exceeded"}`.  `parseJson` below models `JSON.parse`
restricted to that fragment: a single object of `"key": value` pairs with
string (escape-free), integer, boolean or null values and no interior
whitespace.  Inputs outside the fragment are parse failures. -/

inductive Json where
  | str (s : List Char)
  | num (n : Int)
  | bool (b : Bool)
  | null
deriving DecidableEq, Repr

/-- JS truthiness of a JSON value: empty string, zero, `false` and `null`
are falsy. -/
def truthy : Json → Bool
  | .str s => !s.isEmpty
  | .num n => n != 0
  | .bool b => b
  | .null => false

/-- JS `String(v)` / template-literal interpolation of a JSON value. -/
def jsonToString : Json → List Char
  | .str s => s
  | .num n => (toString n).data
  | .bool b => (if b then "true" else "false").data
  | .null => "null".data

/-- The whitespace characters `JSON.parse` skips between tokens. -/
def isJsonWs (c : Char) : Bool :=
  c == ' ' || c == '\t' || c == '\n' || c == '\r'

/-- Parse the body of a JSON string literal (after the opening quote) up
to the closing quote; escapes are outside the modelled fragment. -/
def strLitAux : List Char → Option (List Char × List Char)
  | [] => none
  | c :: rest =>
    if c = '"' then some ([], rest)
    else if c = '\\' then none
    else
      match strLitAux rest with
      | none => none
      | some (content, r) => some (c :: content, r)

/-- Accumulate a run of decimal digits. -/
def natAux : Nat → List Char → Nat × List Char
  | acc, [] => (acc, [])
  | acc, c :: rest =>
    if c.isDigit then natAux (acc * 10 + (c.toNat - '0'.toNat)) rest
    else (acc, c :: rest)

/-- Parse an optional-sign decimal integer numeral. -/
def parseIntTok : List Char → Option (Int × List Char)
  | [] => none
  | c :: rest =>
    if c = '-' then
      match rest with
      | [] => none
      | d :: _ =>
        if d.isDigit then
          let p := natAux 0 rest
          some (-(p.1 : Int), p.2)
        else none
    else if c.isDigit then
      let p := natAux 0 (c :: rest)
      some ((p.1 : Int), p.2)
    else none

/-- JS `Number(string)`: whitespace-only coerces to 0, an optional-sign
integer numeral to its value, anything else to NaN (`none`). -/
def numFromString (s : List Char) : Option Int :=
  let t := jsTrim s
  if t = [] then some 0
  else
    match parseIntTok t with
    | some (n, []) => some n
    | _ => none

/-- JS `Number(payload.index)` where the field access yields `undefined`
(`none`) when absent.  `none` in the result models NaN:
`Number(undefined)` is NaN, `Number(null)` is 0, booleans coerce to 0/1,
strings via `numFromString`. -/
def jsNumber : Option Json → Option Int
  | none => none
  | some (.num n) => some n
  | some (.str s) => numFromString s
  | some (.bool b) => some (if b then 1 else 0)
  | some .null => some 0

/-- Parse one JSON value of the modelled fragment: a string literal, the
literals `true` / `false` / `null`, or an integer numeral. -/
def parseValue : List Char → Option (Json × List Char)
  | [] => none
  | c :: rest =>
    if c = '"' then
      match strLitAux rest with
      | some (content, r) => some (.str content, r)
      | none => none
    else if c = 't' then
      match rest with
      | 'r' :: 'u' :: 'e' :: r => some (.bool true, r)
      | _ => none
    else if c = 'f' then
      match rest with
      | 'a' :: 'l' :: 's' :: 'e' :: r => some (.bool false, r)
      | _ => none
    else if c = 'n' then
      match rest with
      | 'u' :: 'l' :: 'l' :: r => some (.null, r)
      | _ => none
    else
      match parseIntTok (c :: rest) with
      | some (n, r) => some (.num n, r)
      | none => none

/-- Parse a nonempty comma-separated sequence of `"key":value` pairs.
The first argument is recursion fuel; callers pass one more than the
input length, which bounds the recursion depth since every recursive
call consumes at least one character. -/
def parsePairs : Nat → List Char → Option (List (List Char × Json) × List Char)
  | 0, _ => none
  | fuel + 1, s =>
    match s with
    | '"' :: rest =>
      match strLitAux rest with
      | none => none
      | some (key, r1) =>
        match r1 with
        | ':' :: r2 =>
          match parseValue r2 with
          | none => none
          | some (v, r3) =>
            match r3 with
            | ',' :: r4 =>
              match parsePairs fuel r4 with
              | none => none
              | some (ps, r5) => some ((key, v) :: ps, r5)
            | _ => some ([(key, v)], r3)
        | _ => none
    | _ => none

/-- Parse a single JSON object `{...}` returning its key/value pairs and
the remaining input. -/
def parseObject (s : List Char) : Option (List (List Char × Json) × List Char) :=
  match s with
  | '{' :: r =>
    match r with
    | '}' :: r2 => some ([], r2)
    | _ =>
      match parsePairs (r.length + 1) r with
      | some (ps, '}' :: r2) => some (ps, r2)
      | _ => none
  | _ => none

/-- Model of `JSON.parse` on one stream line, restricted to the flat
object fragment of the wire contract (see the section comment): leading
and trailing JSON whitespace is allowed, the line must contain exactly
one object. -/
def parseJson (line : List Char) : Option (List (List Char × Json)) :=
  match parseObject (line.dropWhile isJsonWs) with
  | some (obj, rest) => if rest.dropWhile isJsonWs = [] then some obj else none
  | none => none

/-- Property access `payload[key]` on a parsed JSON object: `none` models
`undefined`.  `JSON.parse` keeps the last occurrence of a duplicated
key. -/
def getField (obj : List (List Char × Json)) (key : List Char) : Option Json :=
  match obj with
  | [] => none
  | (k, v) :: rest =>
    match getField rest key with
    | some w => some w
    | none => if k = key then some v else none

/-! ## The streaming response decoder

Model of `fetchStreamResults` (App.jsx lines 255–329).  The response body
is a sequence of text chunks (the byte-to-text step of `TextDecoder` with
`stream: true` is abstracted: chunks are already text, and any split of
the concatenated text is a valid chunking).  The decoder keeps a text
buffer, splits on `'\n'`, holds back the final fragment, and feeds every
complete line to `processLine`; a thrown error aborts all further
processing. -/

/-- One decoded stream event: the record's `index` (sentinel `-1`) and
the raw `image_base64` payload. -/
structure StreamEvent where
  index : Int
  imageData : List Char
deriving DecidableEq, Repr

def indexKey : List Char := "index".data
def imageKey : List Char := "image_base64".data
def errorKey : List Char := "error".data

/-- Stand-in for the engine-specific `SyntaxError` message produced by
`JSON.parse` on malformed input. -/
def jsonSyntaxErrorMsg : List Char := "Unexpected token in JSON".data

/-- The emission part of `processLine` (App.jsx lines 284–293): skip if
`image_base64` is absent or falsy, otherwise emit an event whose index is
`Number(payload.index)` with NaN replaced by `-1`. -/
def emitFromPayload (payload : List (List Char × Json)) : Option StreamEvent :=
  match getField payload imageKey with
  | some v =>
    if truthy v then
      some ⟨(jsNumber (getField payload indexKey)).getD (-1), jsonToString v⟩
    else none
  | none => none

/-- `processLine` (App.jsx lines 274–294): skip blank lines, parse JSON
(`.error _` models a thrown exception), throw the `error` field if
truthy, otherwise maybe emit an event. -/
def processLine (line : List Char) : Except (List Char) (Option StreamEvent) :=
  if jsTrim line = [] then .ok none
  else
    match parseJson line with
    | none => .error jsonSyntaxErrorMsg
    | some payload =>
      match getField payload errorKey with
      | some e =>
        if truthy e then .error (jsonToString e)
        else .ok (emitFromPayload payload)
      | none => .ok (emitFromPayload payload)

/-- Decoder state: the held-back text buffer, the events emitted so far
(the appended results), and the pending error, if one was thrown. -/
structure DecState where
  bufferedText : List Char
  events : List StreamEvent
  error : Option (List Char)
deriving DecidableEq, Repr

def initState : DecState := ⟨[], [], none⟩

/-- Feed one complete line to the decoder.  An errored decoder performs
no further work (the thrown exception aborted the read loop). -/
def stepLine (st : DecState) (line : List Char) : DecState :=
  match st.error with
  | some _ => st
  | none =>
    match processLine line with
    | .ok none => st
    | .ok (some e) => { st with events := st.events ++ [e] }
    | .error msg => { st with error := some msg }

/-- `bufferedText.split('\n')` followed by `lines.pop()`: returns the
complete lines and the held-back final fragment. -/
def splitNl : List Char → List (List Char) × List Char
  | [] => ([], [])
  | c :: rest =>
    if c = '\n' then ([] :: (splitNl rest).1, (splitNl rest).2)
    else
      match splitNl rest with
      | ([], frag) => ([], c :: frag)
      | (h :: t, frag) => ((c :: h) :: t, frag)

/-- One iteration of the read loop (App.jsx lines 296–315): append the
chunk to the buffer, split off the complete lines, process them in
order. -/
def feedChunk (st : DecState) (chunk : List Char) : DecState :=
  match st.error with
  | some _ => st
  | none =>
    let p := splitNl (st.bufferedText ++ chunk)
    { p.1.foldl stepLine st with bufferedText := p.2 }

/-- End-of-stream handling (App.jsx lines 317–325): a non-blank held-back
fragment is processed as one final line. -/
def finishStream (st : DecState) : DecState :=
  match st.error with
  | some _ => st
  | none =>
    if jsTrim st.bufferedText = [] then st
    else stepLine st st.bufferedText

/-- Run the whole decoder over a chunked response body. -/
def runStream (chunks : List (List Char)) : DecState :=
  finishStream (chunks.foldl feedChunk initState)

/-! ## Splitter lemmas -/

theorem splitNl_cons_newline (rest : List Char) :
    splitNl ('\n' :: rest) = ([] :: (splitNl rest).1, (splitNl rest).2) := by
  simp [splitNl]

theorem splitNl_cons_other_nil {c : Char} (hc : c ≠ '\n') {rest frag : List Char}
    (h : splitNl rest = ([], frag)) :
    splitNl (c :: rest) = ([], c :: frag) := by
  unfold splitNl
  rw [if_neg hc, h]

theorem splitNl_cons_other_cons {c : Char} (hc : c ≠ '\n') {rest h0 frag : List Char}
    {t : List (List Char)} (h : splitNl rest = (h0 :: t, frag)) :
    splitNl (c :: rest) = ((c :: h0) :: t, frag) := by
  unfold splitNl
  rw [if_neg hc, h]

/-- Splitting a concatenation: the complete lines of `x` are final, and
`x`'s held-back fragment is re-joined with `y`. -/
theorem splitNl_append (x y : List Char) :
    splitNl (x ++ y) =
      ((splitNl x).1 ++ (splitNl ((splitNl x).2 ++ y)).1,
        (splitNl ((splitNl x).2 ++ y)).2) := by
  induction x with
  | nil =>
    show splitNl y = _
    simp [splitNl]
  | cons c x' ih =>
    rw [List.cons_append]
    by_cases hc : c = '\n'
    · subst hc
      rw [splitNl_cons_newline, splitNl_cons_newline x', ih]
      simp
    · cases hsp : splitNl x' with
      | mk ls frag =>
        cases ls with
        | nil =>
          have hxy : splitNl (x' ++ y) = splitNl (frag ++ y) := by
            rw [ih, hsp]
            simp
          rw [splitNl_cons_other_nil hc hsp]
          simp only [List.nil_append]
          rw [List.cons_append]
          cases hB : splitNl (frag ++ y) with
          | mk B1 B2 =>
            cases B1 with
            | nil =>
              rw [splitNl_cons_other_nil hc (hxy.trans hB),
                splitNl_cons_other_nil hc hB]
            | cons b bs =>
              rw [splitNl_cons_other_cons hc (hxy.trans hB),
                splitNl_cons_other_cons hc hB]
        | cons h0 t =>
          have hxy : splitNl (x' ++ y) =
              (h0 :: (t ++ (splitNl (frag ++ y)).1), (splitNl (frag ++ y)).2) := by
            rw [ih, hsp]
            simp
          rw [splitNl_cons_other_cons hc hxy, splitNl_cons_other_cons hc hsp]
          simp

theorem splitNl_frag_no_newline (s : List Char) : '\n' ∉ (splitNl s).2 := by
  induction s with
  | nil => simp [splitNl]
  | cons c rest ih =>
    by_cases hc : c = '\n'
    · subst hc
      rw [splitNl_cons_newline]
      exact ih
    · cases hsp : splitNl rest with
      | mk ls frag =>
        rw [hsp] at ih
        cases ls with
        | nil =>
          rw [splitNl_cons_other_nil hc hsp]
          simp only [List.mem_cons, not_or]
          exact ⟨fun h => hc h.symm, ih⟩
        | cons h0 t =>
          rw [splitNl_cons_other_cons hc hsp]
          exact ih

theorem splitNl_no_newline {s : List Char} (h : '\n' ∉ s) : splitNl s = ([], s) := by
  induction s with
  | nil => rfl
  | cons c rest ih =>
    have hc : c ≠ '\n' := fun hh => h (hh ▸ List.mem_cons_self c rest)
    have hrest : '\n' ∉ rest := fun hh => h (List.mem_cons_of_mem c hh)
    exact splitNl_cons_other_nil hc (ih hrest)

theorem splitNl_line_append {l : List Char} (hl : '\n' ∉ l) (t : List Char) :
    splitNl (l ++ '\n' :: t) = (l :: (splitNl t).1, (splitNl t).2) := by
  induction l with
  | nil => exact splitNl_cons_newline t
  | cons c l' ih =>
    have hc : c ≠ '\n' := fun hh => hl (hh ▸ List.mem_cons_self c l')
    have hl' : '\n' ∉ l' := fun hh => hl (List.mem_cons_of_mem c hh)
    rw [List.cons_append, splitNl_cons_other_cons hc (ih hl')]

/-- Splitting the concatenation of newline-terminated lines yields
exactly those lines and an empty held-back fragment. -/
theorem splitNl_join_lines {ls : List (List Char)} (h : ∀ l ∈ ls, '\n' ∉ l) :
    splitNl (ls.map (fun l => l ++ ['\n'])).flatten = (ls, []) := by
  induction ls with
  | nil => rfl
  | cons l rest ih =>
    rw [List.map_cons, List.flatten_cons, List.append_assoc, List.singleton_append,
      splitNl_line_append (h l (List.mem_cons_self l rest)),
      ih (fun x hx => h x (List.mem_cons_of_mem l hx))]

/-! ## Decoder state lemmas -/

theorem stepLine_errored {st : DecState} {m : List Char} (h : st.error = some m)
    (l : List Char) : stepLine st l = st := by
  unfold stepLine
  rw [h]

theorem stepLine_setBuf (st : DecState) (v l : List Char) :
    stepLine ⟨v, st.events, st.error⟩ l =
      ⟨v, (stepLine st l).events, (stepLine st l).error⟩ := by
  cases hst : st.error with
  | some m =>
    unfold stepLine
    simp only [hst]
  | none =>
    unfold stepLine
    simp only [hst]
    cases hq : processLine l with
    | error msg => rfl
    | ok r => cases r <;> simp [hst]

theorem foldl_stepLine_setBuf (ls : List (List Char)) (st : DecState) (v : List Char) :
    ls.foldl stepLine ⟨v, st.events, st.error⟩ =
      ⟨v, (ls.foldl stepLine st).events, (ls.foldl stepLine st).error⟩ := by
  induction ls generalizing st with
  | nil => rfl
  | cons l rest ih =>
    rw [List.foldl_cons, List.foldl_cons, stepLine_setBuf, ih]

theorem foldl_stepLine_errored {st : DecState} {m : List Char} (h : st.error = some m)
    (ls : List (List Char)) : ls.foldl stepLine st = st := by
  induction ls with
  | nil => rfl
  | cons l rest ih => rw [List.foldl_cons, stepLine_errored h, ih]

theorem feedChunk_errored {st : DecState} {m : List Char} (h : st.error = some m)
    (chunk : List Char) : feedChunk st chunk = st := by
  unfold feedChunk
  rw [h]

theorem finishStream_errored {st : DecState} {m : List Char} (h : st.error = some m) :
    finishStream st = st := by
  unfold finishStream
  rw [h]

theorem feedChunk_none (st : DecState) (hst : st.error = none) (chunk : List Char) :
    feedChunk st chunk =
      ⟨(splitNl (st.bufferedText ++ chunk)).2,
        ((splitNl (st.bufferedText ++ chunk)).1.foldl stepLine st).events,
        ((splitNl (st.bufferedText ++ chunk)).1.foldl stepLine st).error⟩ := by
  unfold feedChunk
  rw [hst]

/-- Feeding chunk `a` then chunk `b` is the same as feeding `a ++ b`,
provided no error occurred while processing `a`. -/
theorem feedChunk_comp_full (st : DecState) (a b : List Char)
    (h1 : (feedChunk st a).error = none) :
    feedChunk (feedChunk st a) b = feedChunk st (a ++ b) := by
  cases hst : st.error with
  | some m =>
    rw [feedChunk_errored hst] at h1
    rw [hst] at h1
    cases h1
  | none =>
    have hfa := feedChunk_none st hst a
    have h0 : ((splitNl (st.bufferedText ++ a)).1.foldl stepLine st).error = none := by
      rw [hfa] at h1
      exact h1
    rw [hfa,
      feedChunk_none ⟨(splitNl (st.bufferedText ++ a)).2,
        ((splitNl (st.bufferedText ++ a)).1.foldl stepLine st).events,
        ((splitNl (st.bufferedText ++ a)).1.foldl stepLine st).error⟩ h0 b,
      feedChunk_none st hst (a ++ b)]
    dsimp only
    rw [foldl_stepLine_setBuf, ← List.append_assoc,
      splitNl_append (st.bufferedText ++ a) b]
    simp only [List.foldl_append]

/-- Without the no-error hypothesis, the emitted events and the error of
the two-step and the one-step feed still agree (only the dead buffer can
differ once the decoder has errored). -/
theorem feedChunk_comp_proj (st : DecState) (a b : List Char) :
    (feedChunk (feedChunk st a) b).events = (feedChunk st (a ++ b)).events ∧
    (feedChunk (feedChunk st a) b).error = (feedChunk st (a ++ b)).error := by
  cases hst : st.error with
  | some m =>
    rw [feedChunk_errored hst, feedChunk_errored hst, feedChunk_errored hst]
    exact ⟨rfl, rfl⟩
  | none =>
    cases h1 : (feedChunk st a).error with
    | none =>
      rw [feedChunk_comp_full st a b h1]
      exact ⟨rfl, rfl⟩
    | some m =>
      rw [feedChunk_errored h1 b]
      rw [feedChunk_none st hst a] at h1 ⊢
      have hs0 : ((splitNl (st.bufferedText ++ a)).1.foldl stepLine st).error = some m := h1
      rw [feedChunk_none st hst (a ++ b), ← List.append_assoc,
        splitNl_append (st.bufferedText ++ a) b]
      simp only [List.foldl_append]
      rw [foldl_stepLine_errored hs0]
      exact ⟨rfl, rfl⟩

theorem feedChunk_nil (st : DecState) (h : '\n' ∉ st.bufferedText) :
    feedChunk st [] = st := by
  cases hst : st.error with
  | some m => exact feedChunk_errored hst []
  | none =>
    rw [feedChunk_none st hst, List.append_nil, splitNl_no_newline h]
    rfl

theorem feedChunk_buf_no_newline (st : DecState) (h : '\n' ∉ st.bufferedText)
    (chunk : List Char) : '\n' ∉ (feedChunk st chunk).bufferedText := by
  cases hst : st.error with
  | some m => rw [feedChunk_errored hst]; exact h
  | none => rw [feedChunk_none st hst]; exact splitNl_frag_no_newline _

/-- Chunk-boundary invariance, events/error components: folding the chunk
list equals feeding the concatenation. -/
theorem foldl_feedChunk_flatten_proj (chunks : List (List Char)) (st : DecState)
    (hbuf : '\n' ∉ st.bufferedText) :
    (chunks.foldl feedChunk st).events = (feedChunk st chunks.flatten).events ∧
    (chunks.foldl feedChunk st).error = (feedChunk st chunks.flatten).error := by
  induction chunks generalizing st with
  | nil =>
    rw [List.foldl_nil, List.flatten_nil, feedChunk_nil st hbuf]
    exact ⟨rfl, rfl⟩
  | cons c cs ih =>
    rw [List.foldl_cons, List.flatten_cons]
    obtain ⟨he, hr⟩ := ih (feedChunk st c) (feedChunk_buf_no_newline st hbuf c)
    obtain ⟨pe, pr⟩ := feedChunk_comp_proj st c cs.flatten
    exact ⟨he.trans pe, hr.trans pr⟩

/-- Chunk-boundary invariance, full states, when the whole feed is
error-free. -/
theorem foldl_feedChunk_flatten_full (chunks : List (List Char)) (st : DecState)
    (hbuf : '\n' ∉ st.bufferedText)
    (hok : (feedChunk st chunks.flatten).error = none) :
    chunks.foldl feedChunk st = feedChunk st chunks.flatten := by
  induction chunks generalizing st with
  | nil => rw [List.foldl_nil, List.flatten_nil, feedChunk_nil st hbuf]
  | cons c cs ih =>
    rw [List.flatten_cons] at hok
    have h1 : (feedChunk st c).error = none := by
      cases hm : (feedChunk st c).error with
      | none => rfl
      | some m =>
        have hp := (feedChunk_comp_proj st c cs.flatten).2
        rw [feedChunk_errored hm, hm] at hp
        rw [← hp] at hok
        cases hok
    have h2 : (feedChunk (feedChunk st c) cs.flatten).error = none := by
      rw [(feedChunk_comp_proj st c cs.flatten).2]
      exact hok
    rw [List.foldl_cons, ih (feedChunk st c) (feedChunk_buf_no_newline st hbuf c) h2,
      feedChunk_comp_full st c cs.flatten h1, List.flatten_cons]

/-! ## Record lines and `processLine` behaviour -/

theorem jsTrim_nil_all_ws {s : List Char} (h : jsTrim s = []) :
    ∀ c ∈ s, isJsWs c = true := by
  unfold jsTrim at h
  rw [List.reverse_eq_nil_iff, List.dropWhile_eq_nil_iff] at h
  intro c hc
  rw [← List.takeWhile_append_dropWhile isJsWs s] at hc
  rcases List.mem_append.mp hc with h1 | h2
  · exact List.mem_takeWhile_imp h1
  · exact h c (List.mem_reverse.mpr h2)

theorem parseObject_head {s : List Char} {obj : List (List Char × Json)}
    {rest : List Char} (h : parseObject s = some (obj, rest)) :
    ∃ r, s = '{' :: r := by
  unfold parseObject at h
  split at h
  · next r => exact ⟨r, rfl⟩
  · cases h

/-- A line that `JSON.parse` accepts is not blank: parsing demands a
`'{'`, which survives trimming. -/
theorem parseJson_some_not_blank {line : List Char} {obj : List (List Char × Json)}
    (h : parseJson line = some obj) : jsTrim line ≠ [] := by
  intro hblank
  have hws := jsTrim_nil_all_ws hblank
  unfold parseJson at h
  cases hobj : parseObject (line.dropWhile isJsonWs) with
  | none => rw [hobj] at h; cases h
  | some p =>
    obtain ⟨o, rest⟩ := p
    obtain ⟨r, hr⟩ := parseObject_head hobj
    have hmem : '{' ∈ line := by
      have : '{' ∈ line.dropWhile isJsonWs := by
        rw [hr]; exact List.mem_cons_self _ _
      exact (List.dropWhile_sublist isJsonWs).mem this
    have := hws '{' hmem
    revert this
    decide

/-- The line is a well-formed image record: it parses to an object with
no `error` field, a nonempty-string `image_base64` field equal to `img`,
and an `index` field that `Number` coerces to `i`. -/
def isImageRecordLine (line : List Char) (i : Int) (img : List Char) : Prop :=
  '\n' ∉ line ∧ img ≠ [] ∧
  (parseJson line).map (fun obj =>
    (getField obj errorKey, getField obj imageKey,
      jsNumber (getField obj indexKey))) =
    some (none, some (.str img), some i)

instance (line : List Char) (i : Int) (img : List Char) :
    Decidable (isImageRecordLine line i img) := by
  unfold isImageRecordLine
  infer_instance

/-- `processLine` on an image-record line emits exactly the expected
event. -/
theorem processLine_imageRecord {line : List Char} {i : Int} {img : List Char}
    (h : isImageRecordLine line i img) :
    processLine line = .ok (some ⟨i, img⟩) := by
  obtain ⟨hnl, hne, hfields⟩ := h
  cases hparse : parseJson line with
  | none => rw [hparse] at hfields; cases hfields
  | some obj =>
    rw [hparse] at hfields
    simp at hfields
    obtain ⟨herr, himg, hidx⟩ := hfields
    unfold processLine emitFromPayload
    rw [if_neg (parseJson_some_not_blank hparse)]
    have htr : truthy (.str img) = true := by
      simp [truthy, hne]
    simp only [hparse, herr, himg, hidx, htr, if_true]
    rfl

/-- A blank (whitespace-only) line is skipped. -/
theorem processLine_blank {line : List Char} (h : jsTrim line = []) :
    processLine line = .ok none := by
  unfold processLine
  rw [if_pos h]

/-- Folding `stepLine` over lines that each emit an event appends exactly
those events in order. -/
theorem foldl_stepLine_emits (items : List ((List Char) × StreamEvent)) (st : DecState)
    (hst : st.error = none)
    (h : ∀ it ∈ items, processLine it.1 = .ok (some it.2)) :
    (items.map Prod.fst).foldl stepLine st =
      ⟨st.bufferedText, st.events ++ items.map Prod.snd, none⟩ := by
  induction items generalizing st with
  | nil =>
    obtain ⟨b, e, err⟩ := st
    simp only at hst
    subst hst
    simp
  | cons it rest ih =>
    obtain ⟨l, ev⟩ := it
    rw [List.map_cons, List.foldl_cons]
    have hsl : stepLine st l = ⟨st.bufferedText, st.events ++ [ev], none⟩ := by
      unfold stepLine
      rw [hst, h (l, ev) (List.mem_cons_self _ _)]
    rw [hsl, ih ⟨st.bufferedText, st.events ++ [ev], none⟩ rfl
      (fun x hx => h x (List.mem_cons_of_mem _ hx))]
    simp

/-- **C1.** For every chunking of a body consisting of N
newline-delimited JSON records with distinct numeric indices and
(nonempty) `image_base64` payloads, the decoder emits exactly N events,
the k-th carrying the k-th record's index and payload, regardless of
where the chunk boundaries fall. -/
theorem stream_decoder_decodes_all_records
    (items : List ((List Char) × Int × (List Char)))
    (chunks : List (List Char))
    (hrec : ∀ it ∈ items, isImageRecordLine it.1 it.2.1 it.2.2)
    (hdist : (items.map (fun it => it.2.1)).Nodup)
    (hchunks : chunks.flatten = (items.map (fun it => it.1 ++ ['\n'])).flatten) :
    (runStream chunks).events = items.map (fun it => ⟨it.2.1, it.2.2⟩) ∧
    (runStream chunks).error = none := by
  have hlines : ∀ l ∈ items.map (fun it => it.1), '\n' ∉ l := by
    intro l hl
    obtain ⟨it, hit, rfl⟩ := List.mem_map.mp hl
    exact (hrec it hit).1
  have hmapeq : (items.map fun it => it.1 ++ ['\n']) =
      (items.map fun it => it.1).map (fun l => l ++ ['\n']) := by
    rw [List.map_map]
    rfl
  have hsplit : splitNl chunks.flatten = (items.map fun it => it.1, []) := by
    rw [hchunks, hmapeq, splitNl_join_lines hlines]
  have hemit : ∀ it ∈ items.map (fun it => (it.1, (⟨it.2.1, it.2.2⟩ : StreamEvent))),
      processLine it.1 = .ok (some it.2) := by
    intro it hit
    obtain ⟨it0, hit0, rfl⟩ := List.mem_map.mp hit
    exact processLine_imageRecord (hrec it0 hit0)
  have hfold := foldl_stepLine_emits
    (items.map (fun it => (it.1, (⟨it.2.1, it.2.2⟩ : StreamEvent)))) initState rfl hemit
  have hfstmap : (items.map (fun it => (it.1, (⟨it.2.1, it.2.2⟩ : StreamEvent)))).map Prod.fst
      = items.map fun it => it.1 := by
    rw [List.map_map]
    rfl
  have hsndmap : (items.map (fun it => (it.1, (⟨it.2.1, it.2.2⟩ : StreamEvent)))).map Prod.snd
      = items.map fun it => (⟨it.2.1, it.2.2⟩ : StreamEvent) := by
    rw [List.map_map]
    rfl
  rw [hfstmap, hsndmap] at hfold
  have hfeed : feedChunk initState chunks.flatten =
      ⟨[], items.map (fun it => (⟨it.2.1, it.2.2⟩ : StreamEvent)), none⟩ := by
    rw [feedChunk_none initState rfl chunks.flatten]
    simp only [initState, List.nil_append] at hfold ⊢
    rw [hsplit]
    dsimp only
    rw [hfold]
  have hok : (feedChunk initState chunks.flatten).error = none := by
    rw [hfeed]
  have hfull := foldl_feedChunk_flatten_full chunks initState
    (by simp [initState]) hok
  unfold runStream
  rw [hfull, hfeed]
  exact ⟨rfl, rfl⟩

/-- Closed instance of C1: two records; the chunk boundary falls in the
middle of the first record's `image_base64` key. -/
theorem stream_decoder_decodes_all_records_witness :
    (∀ it ∈ ([("\x7b\"index\":1,\"image_base64\":\"QQ==\"\x7d".data, 1, "QQ==".data),
        ("\x7b\"index\":0,\"image_base64\":\"Qg==\"\x7d".data, 0, "Qg==".data)] :
        List ((List Char) × Int × (List Char))),
      isImageRecordLine it.1 it.2.1 it.2.2) ∧
    (([("\x7b\"index\":1,\"image_base64\":\"QQ==\"\x7d".data, (1 : Int), "QQ==".data),
        ("\x7b\"index\":0,\"image_base64\":\"Qg==\"\x7d".data, 0, "Qg==".data)].map
        (fun it => it.2.1)).Nodup) ∧
    (["\x7b\"index\":1,\"image_ba".data,
        "se64\":\"QQ==\"\x7d\n\x7b\"index\":0,\"image_base64\":\"Qg==\"\x7d\n".data] :
        List (List Char)).flatten =
      ([("\x7b\"index\":1,\"image_base64\":\"QQ==\"\x7d".data, (1 : Int), "QQ==".data),
        ("\x7b\"index\":0,\"image_base64\":\"Qg==\"\x7d".data, 0, "Qg==".data)].map
        (fun it => it.1 ++ ['\n'])).flatten ∧
    ((runStream ["\x7b\"index\":1,\"image_ba".data,
        "se64\":\"QQ==\"\x7d\n\x7b\"index\":0,\"image_base64\":\"Qg==\"\x7d\n".data]).events =
      [("\x7b\"index\":1,\"image_base64\":\"QQ==\"\x7d".data, (1 : Int), "QQ==".data),
        ("\x7b\"index\":0,\"image_base64\":\"Qg==\"\x7d".data, 0, "Qg==".data)].map
        (fun it => ⟨it.2.1, it.2.2⟩) ∧
      (runStream ["\x7b\"index\":1,\"image_ba".data,
        "se64\":\"QQ==\"\x7d\n\x7b\"index\":0,\"image_base64\":\"Qg==\"\x7d\n".data]).error = none) :=
  ⟨by decide, by decide, by decide,
    stream_decoder_decodes_all_records _ _ (by decide) (by decide) (by decide)⟩

/-! ## Reduction of a full run to a single feed -/

/-- The events and error of a chunked run equal those of feeding the
whole body as one chunk and finishing. -/
theorem runStream_proj (chunks : List (List Char)) :
    (runStream chunks).events =
      (finishStream (feedChunk initState chunks.flatten)).events ∧
    (runStream chunks).error =
      (finishStream (feedChunk initState chunks.flatten)).error := by
  cases herr : (feedChunk initState chunks.flatten).error with
  | none =>
    unfold runStream
    rw [foldl_feedChunk_flatten_full chunks initState (by simp [initState]) herr]
    exact ⟨rfl, rfl⟩
  | some m =>
    obtain ⟨he, hr⟩ := foldl_feedChunk_flatten_proj chunks initState (by simp [initState])
    unfold runStream
    rw [finishStream_errored herr, finishStream_errored (hr.trans herr)]
    exact ⟨he, hr⟩

theorem stepLine_blank {w : List Char} (hw : jsTrim w = []) (st : DecState) :
    stepLine st w = st := by
  unfold stepLine
  cases hst : st.error with
  | some m => rfl
  | none => rw [processLine_blank hw]

/-- **C8.** Every blank or whitespace-only line, wherever it occurs in
the stream, is skipped: it yields no event and no error
(`processLine` skips it), and the whole run is unchanged compared to the
same stream without the blank line. -/
theorem blank_lines_skipped
    (pres : List (List Char)) (w rest : List Char)
    (chunks chunks' : List (List Char))
    (hpres : ∀ l ∈ pres, '\n' ∉ l)
    (hw : jsTrim w = []) (hwn : '\n' ∉ w)
    (hchunks : chunks.flatten =
      (pres.map (fun l => l ++ ['\n'])).flatten ++ w ++ '\n' :: rest)
    (hchunks' : chunks'.flatten =
      (pres.map (fun l => l ++ ['\n'])).flatten ++ rest) :
    processLine w = .ok none ∧
    (runStream chunks).events = (runStream chunks').events ∧
    (runStream chunks).error = (runStream chunks').error := by
  obtain ⟨e1, r1⟩ := runStream_proj chunks
  obtain ⟨e2, r2⟩ := runStream_proj chunks'
  have hfeq : feedChunk initState chunks.flatten =
      feedChunk initState chunks'.flatten := by
    rw [hchunks, hchunks', feedChunk_none initState rfl, feedChunk_none initState rfl]
    simp only [initState, List.nil_append]
    rw [List.append_assoc, splitNl_append ((pres.map (fun l => l ++ ['\n'])).flatten)
        (w ++ '\n' :: rest),
      splitNl_append ((pres.map (fun l => l ++ ['\n'])).flatten) rest,
      splitNl_join_lines hpres]
    dsimp only
    rw [List.nil_append, List.nil_append, splitNl_line_append hwn rest]
    dsimp only
    simp only [List.foldl_append, List.foldl_cons, stepLine_blank hw]
  rw [e1, r1, e2, r2, hfeq]
  exact ⟨processLine_blank hw, rfl, rfl⟩

/-- Closed instance of C8: a whitespace-only line between two records has
no effect on the run. -/
theorem blank_lines_skipped_witness :
    (∀ l ∈ ["\x7b\"index\":0,\"image_base64\":\"QQ==\"\x7d".data], '\n' ∉ l) ∧
    jsTrim "  ".data = [] ∧ '\n' ∉ "  ".data ∧
    (["\x7b\"index\":0,\"image_base64\":\"QQ==\"\x7d\n  \n\x7b\"index\":1,\"image_base64\":\"Qg==\"\x7d\n".data] :
      List (List Char)).flatten =
      (["\x7b\"index\":0,\"image_base64\":\"QQ==\"\x7d".data].map
        (fun l => l ++ ['\n'])).flatten ++ "  ".data ++
        '\n' :: "\x7b\"index\":1,\"image_base64\":\"Qg==\"\x7d\n".data ∧
    (["\x7b\"index\":0,\"image_base64\":\"QQ==\"\x7d\n\x7b\"index\":1,\"image_base64\":\"Qg==\"\x7d\n".data] :
      List (List Char)).flatten =
      (["\x7b\"index\":0,\"image_base64\":\"QQ==\"\x7d".data].map
        (fun l => l ++ ['\n'])).flatten ++ "\x7b\"index\":1,\"image_base64\":\"Qg==\"\x7d\n".data ∧
    (processLine "  ".data = .ok none ∧
      (runStream ["\x7b\"index\":0,\"image_base64\":\"QQ==\"\x7d\n  \n\x7b\"index\":1,\"image_base64\":\"Qg==\"\x7d\n".data]).events =
        (runStream ["\x7b\"index\":0,\"image_base64\":\"QQ==\"\x7d\n\x7b\"index\":1,\"image_base64\":\"Qg==\"\x7d\n".data]).events ∧
      (runStream ["\x7b\"index\":0,\"image_base64\":\"QQ==\"\x7d\n  \n\x7b\"index\":1,\"image_base64\":\"Qg==\"\x7d\n".data]).error =
        (runStream ["\x7b\"index\":0,\"image_base64\":\"QQ==\"\x7d\n\x7b\"index\":1,\"image_base64\":\"Qg==\"\x7d\n".data]).error) :=
  ⟨by decide, by decide, by decide, by decide, by decide,
    blank_lines_skipped ["\x7b\"index\":0,\"image_base64\":\"QQ==\"\x7d".data] "  ".data
      "\x7b\"index\":1,\"image_base64\":\"Qg==\"\x7d\n".data _ _
      (by decide) (by decide) (by decide) (by decide) (by decide)⟩

/-- **C9.** A stream ending without a trailing newline: the held-back
final fragment, being a non-blank record line, is processed at
end-of-stream like any other line and produces its event. -/
theorem final_fragment_processed
    (items : List ((List Char) × Int × (List Char)))
    (frag : List Char) (i : Int) (img : List Char)
    (chunks : List (List Char))
    (hrec : ∀ it ∈ items, isImageRecordLine it.1 it.2.1 it.2.2)
    (hfrag : isImageRecordLine frag i img)
    (hchunks : chunks.flatten =
      (items.map (fun it => it.1 ++ ['\n'])).flatten ++ frag) :
    (runStream chunks).events =
      items.map (fun it => ⟨it.2.1, it.2.2⟩) ++ [⟨i, img⟩] ∧
    (runStream chunks).error = none := by
  obtain ⟨e1, r1⟩ := runStream_proj chunks
  have hlines : ∀ l ∈ items.map (fun it => it.1), '\n' ∉ l := by
    intro l hl
    obtain ⟨it, hit, rfl⟩ := List.mem_map.mp hl
    exact (hrec it hit).1
  have hemit : ∀ it ∈ items.map (fun it => (it.1, (⟨it.2.1, it.2.2⟩ : StreamEvent))),
      processLine it.1 = .ok (some it.2) := by
    intro it hit
    obtain ⟨it0, hit0, rfl⟩ := List.mem_map.mp hit
    exact processLine_imageRecord (hrec it0 hit0)
  have hfold := foldl_stepLine_emits
    (items.map (fun it => (it.1, (⟨it.2.1, it.2.2⟩ : StreamEvent)))) initState rfl hemit
  have hfstmap : (items.map (fun it => (it.1, (⟨it.2.1, it.2.2⟩ : StreamEvent)))).map Prod.fst
      = items.map fun it => it.1 := by
    rw [List.map_map]
    rfl
  have hsndmap : (items.map (fun it => (it.1, (⟨it.2.1, it.2.2⟩ : StreamEvent)))).map Prod.snd
      = items.map fun it => (⟨it.2.1, it.2.2⟩ : StreamEvent) := by
    rw [List.map_map]
    rfl
  rw [hfstmap, hsndmap] at hfold
  have hmapeq : (items.map fun it => it.1 ++ ['\n']) =
      (items.map fun it => it.1).map (fun l => l ++ ['\n']) := by
    rw [List.map_map]
    rfl
  have hfeed : feedChunk initState chunks.flatten =
      ⟨frag, items.map (fun it => (⟨it.2.1, it.2.2⟩ : StreamEvent)), none⟩ := by
    rw [hchunks, feedChunk_none initState rfl]
    simp only [initState, List.nil_append] at hfold ⊢
    rw [splitNl_append ((items.map (fun it => it.1 ++ ['\n'])).flatten) frag,
      hmapeq, splitNl_join_lines hlines]
    dsimp only
    rw [List.nil_append, splitNl_no_newline hfrag.1]
    dsimp only
    rw [List.append_nil, hfold]
  have hblank : jsTrim frag ≠ [] := by
    obtain ⟨hnl, hne, hfields⟩ := hfrag
    cases hparse : parseJson frag with
    | none => rw [hparse] at hfields; cases hfields
    | some obj => exact parseJson_some_not_blank hparse
  have hfin : finishStream ⟨frag, items.map (fun it => (⟨it.2.1, it.2.2⟩ : StreamEvent)), none⟩ =
      ⟨frag, items.map (fun it => (⟨it.2.1, it.2.2⟩ : StreamEvent)) ++ [⟨i, img⟩], none⟩ := by
    unfold finishStream
    dsimp only
    rw [if_neg hblank]
    unfold stepLine
    dsimp only
    rw [processLine_imageRecord hfrag]
  rw [e1, r1, hfeed, hfin]
  exact ⟨rfl, rfl⟩

/-- Closed instance of C9: one newline-terminated record followed by a
final record with no trailing newline, split into two chunks. -/
theorem final_fragment_processed_witness :
    (∀ it ∈ ([("\x7b\"index\":0,\"image_base64\":\"QQ==\"\x7d".data, 0, "QQ==".data)] :
        List ((List Char) × Int × (List Char))),
      isImageRecordLine it.1 it.2.1 it.2.2) ∧
    isImageRecordLine "\x7b\"index\":1,\"image_base64\":\"Qg==\"\x7d".data 1 "Qg==".data ∧
    (["\x7b\"index\":0,\"image_base64\":\"QQ==\"\x7d\n\x7b\"index\":1,\"im".data,
      "age_base64\":\"Qg==\"\x7d".data] : List (List Char)).flatten =
      ([("\x7b\"index\":0,\"image_base64\":\"QQ==\"\x7d".data, (0 : Int), "QQ==".data)].map
        (fun it => it.1 ++ ['\n'])).flatten ++
        "\x7b\"index\":1,\"image_base64\":\"Qg==\"\x7d".data ∧
    ((runStream ["\x7b\"index\":0,\"image_base64\":\"QQ==\"\x7d\n\x7b\"index\":1,\"im".data,
        "age_base64\":\"Qg==\"\x7d".data]).events =
      [("\x7b\"index\":0,\"image_base64\":\"QQ==\"\x7d".data, (0 : Int), "QQ==".data)].map
        (fun it => ⟨it.2.1, it.2.2⟩) ++ [⟨1, "Qg==".data⟩] ∧
      (runStream ["\x7b\"index\":0,\"image_base64\":\"QQ==\"\x7d\n\x7b\"index\":1,\"im".data,
        "age_base64\":\"Qg==\"\x7d".data]).error = none) :=
  ⟨by decide, by decide, by decide,
    final_fragment_processed
      [("\x7b\"index\":0,\"image_base64\":\"QQ==\"\x7d".data, (0 : Int), "QQ==".data)]
      "\x7b\"index\":1,\"image_base64\":\"Qg==\"\x7d".data 1 "Qg==".data
      ["\x7b\"index\":0,\"image_base64\":\"QQ==\"\x7d\n\x7b\"index\":1,\"im".data,
        "age_base64\":\"Qg==\"\x7d".data]
      (by decide) (by decide) (by decide)⟩

/-! ## Error propagation -/

/-- The k-th line fails: it is non-blank and either does not parse as
JSON (surfacing the `JSON.parse` exception message) or parses with a
truthy `error` field (surfacing that field's message). -/
def isFailingLine (line msg : List Char) : Prop :=
  '\n' ∉ line ∧ jsTrim line ≠ [] ∧
  ((parseJson line = none ∧ msg = jsonSyntaxErrorMsg) ∨
   (∃ obj e, parseJson line = some obj ∧ getField obj errorKey = some e ∧
     truthy e = true ∧ msg = jsonToString e))

theorem processLine_failing {line msg : List Char} (h : isFailingLine line msg) :
    processLine line = .error msg := by
  obtain ⟨hnl, hblank, hcase⟩ := h
  unfold processLine
  rw [if_neg hblank]
  rcases hcase with ⟨hparse, rfl⟩ | ⟨obj, e, hparse, herr, htr, rfl⟩
  · rw [hparse]
  · rw [hparse]
    dsimp only
    rw [herr]
    dsimp only
    rw [if_pos htr]

/-- One stream line paired with its expected effect: `none` for a blank
line (skipped), `some (i, img)` for an image record emitting an event. -/
def isStreamLine (p : (List Char) × Option (Int × List Char)) : Prop :=
  match p.2 with
  | none => '\n' ∉ p.1 ∧ jsTrim p.1 = []
  | some r => isImageRecordLine p.1 r.1 r.2

instance (p : (List Char) × Option (Int × List Char)) : Decidable (isStreamLine p) :=
  match p with
  | (l, none) => inferInstanceAs (Decidable ('\n' ∉ l ∧ jsTrim l = []))
  | (l, some r) => inferInstanceAs (Decidable (isImageRecordLine l r.1 r.2))

theorem isStreamLine_no_newline {p : (List Char) × Option (Int × List Char)}
    (h : isStreamLine p) : '\n' ∉ p.1 := by
  unfold isStreamLine at h
  rcases p with ⟨l, _ | r⟩
  · exact h.1
  · exact h.1

/-- Folding the decoder over a run of blank lines and record lines
appends exactly the record events, in order. -/
theorem foldl_stepLine_stream
    (pres : List ((List Char) × Option (Int × List Char))) (st : DecState)
    (hst : st.error = none)
    (h : ∀ p ∈ pres, isStreamLine p) :
    (pres.map Prod.fst).foldl stepLine st =
      ⟨st.bufferedText,
        st.events ++ pres.filterMap
          (fun p => p.2.map (fun r => (⟨r.1, r.2⟩ : StreamEvent))),
        none⟩ := by
  induction pres generalizing st with
  | nil =>
    obtain ⟨b, e, err⟩ := st
    simp only at hst
    subst hst
    simp
  | cons p rest ih =>
    obtain ⟨l, r⟩ := p
    have hp := h (l, r) (List.mem_cons_self _ _)
    rw [List.map_cons, List.foldl_cons]
    cases r with
    | none =>
      obtain ⟨-, hbl⟩ := hp
      rw [stepLine_blank hbl st,
        ih st hst (fun x hx => h x (List.mem_cons_of_mem _ hx))]
      rfl
    | some rec =>
      have hsl : stepLine st l =
          ⟨st.bufferedText, st.events ++ [(⟨rec.1, rec.2⟩ : StreamEvent)], none⟩ := by
        unfold stepLine
        rw [hst, processLine_imageRecord hp]
      rw [hsl,
        ih ⟨st.bufferedText, st.events ++ [(⟨rec.1, rec.2⟩ : StreamEvent)], none⟩ rfl
          (fun x hx => h x (List.mem_cons_of_mem _ hx))]
      simp

/-- **C2.** If the k-th non-blank line of the stream fails (parse error
or truthy `error` field) while all earlier non-blank lines are valid
records, the decoder emits exactly the k-1 earlier events, surfaces that
single error, and processes nothing after the failing line, whatever
follows it and however the body is chunked. -/
theorem stream_decoder_stops_on_error
    (pres : List ((List Char) × Option (Int × List Char)))
    (bad msg rest : List Char)
    (chunks : List (List Char))
    (hpres : ∀ p ∈ pres, isStreamLine p)
    (hbad : isFailingLine bad msg)
    (hchunks : chunks.flatten =
      (pres.map (fun p => p.1 ++ ['\n'])).flatten ++ bad ++ '\n' :: rest) :
    (runStream chunks).events =
      pres.filterMap (fun p => p.2.map (fun r => (⟨r.1, r.2⟩ : StreamEvent))) ∧
    (runStream chunks).error = some msg := by
  obtain ⟨e1, r1⟩ := runStream_proj chunks
  have hlines : ∀ l ∈ pres.map Prod.fst, '\n' ∉ l := by
    intro l hl
    obtain ⟨p, hp, rfl⟩ := List.mem_map.mp hl
    exact isStreamLine_no_newline (hpres p hp)
  have hmapeq : (pres.map fun p => p.1 ++ ['\n']) =
      (pres.map Prod.fst).map (fun l => l ++ ['\n']) := by
    rw [List.map_map]
    rfl
  have hfold := foldl_stepLine_stream pres initState rfl hpres
  have hfeed : feedChunk initState chunks.flatten =
      ⟨(splitNl rest).2,
        pres.filterMap (fun p => p.2.map (fun r => (⟨r.1, r.2⟩ : StreamEvent))),
        some msg⟩ := by
    rw [hchunks, feedChunk_none initState rfl]
    simp only [initState, List.nil_append] at hfold ⊢
    rw [List.append_assoc,
      splitNl_append ((pres.map (fun p => p.1 ++ ['\n'])).flatten) (bad ++ '\n' :: rest),
      hmapeq, splitNl_join_lines hlines]
    dsimp only
    rw [List.nil_append, splitNl_line_append hbad.1 rest]
    dsimp only
    rw [List.foldl_append, hfold, List.foldl_cons]
    have hbadstep : stepLine
        ⟨[], pres.filterMap (fun p => p.2.map (fun r => (⟨r.1, r.2⟩ : StreamEvent))), none⟩
        bad =
        ⟨[], pres.filterMap (fun p => p.2.map (fun r => (⟨r.1, r.2⟩ : StreamEvent))),
          some msg⟩ := by
      unfold stepLine
      dsimp only
      rw [processLine_failing hbad]
    rw [hbadstep, foldl_stepLine_errored rfl]
  rw [e1, r1, hfeed, finishStream_errored (by rfl)]
  exact ⟨rfl, rfl⟩

/-- Closed instance of C2: one good record, then `{"error":"quota
exceeded"}` as the second non-blank line, then a further record that is
never processed; the body is split mid-error-line. -/
theorem stream_decoder_stops_on_error_witness :
    (∀ p ∈ ([("\x7b\"index\":0,\"image_base64\":\"QQ==\"\x7d".data,
        some ((0 : Int), "QQ==".data))] :
        List ((List Char) × Option (Int × List Char))), isStreamLine p) ∧
    isFailingLine "\x7b\"error\":\"quota exceeded\"\x7d".data "quota exceeded".data ∧
    (["\x7b\"index\":0,\"image_base64\":\"QQ==\"\x7d\n\x7b\"error\":\"quo".data,
      "ta exceeded\"\x7d\n\x7b\"index\":1,\"image_base64\":\"Qg==\"\x7d\n".data] :
      List (List Char)).flatten =
      (([("\x7b\"index\":0,\"image_base64\":\"QQ==\"\x7d".data,
          some ((0 : Int), "QQ==".data))] :
        List ((List Char) × Option (Int × List Char))).map
          (fun p => p.1 ++ ['\n'])).flatten ++
        "\x7b\"error\":\"quota exceeded\"\x7d".data ++
        '\n' :: "\x7b\"index\":1,\"image_base64\":\"Qg==\"\x7d\n".data ∧
    ((runStream ["\x7b\"index\":0,\"image_base64\":\"QQ==\"\x7d\n\x7b\"error\":\"quo".data,
        "ta exceeded\"\x7d\n\x7b\"index\":1,\"image_base64\":\"Qg==\"\x7d\n".data]).events =
      ([("\x7b\"index\":0,\"image_base64\":\"QQ==\"\x7d".data,
          some ((0 : Int), "QQ==".data))] :
        List ((List Char) × Option (Int × List Char))).filterMap
          (fun p => p.2.map (fun r => (⟨r.1, r.2⟩ : StreamEvent))) ∧
      (runStream ["\x7b\"index\":0,\"image_base64\":\"QQ==\"\x7d\n\x7b\"error\":\"quo".data,
        "ta exceeded\"\x7d\n\x7b\"index\":1,\"image_base64\":\"Qg==\"\x7d\n".data]).error =
        some "quota exceeded".data) :=
  ⟨by decide,
    ⟨by decide, by decide,
      Or.inr ⟨[("error".data, Json.str "quota exceeded".data)],
        Json.str "quota exceeded".data, by decide, by decide, by decide, by decide⟩⟩,
    by decide,
    stream_decoder_stops_on_error
      [("\x7b\"index\":0,\"image_base64\":\"QQ==\"\x7d".data, some ((0 : Int), "QQ==".data))]
      "\x7b\"error\":\"quota exceeded\"\x7d".data "quota exceeded".data
      "\x7b\"index\":1,\"image_base64\":\"Qg==\"\x7d\n".data
      ["\x7b\"index\":0,\"image_base64\":\"QQ==\"\x7d\n\x7b\"error\":\"quo".data,
        "ta exceeded\"\x7d\n\x7b\"index\":1,\"image_base64\":\"Qg==\"\x7d\n".data]
      (by decide)
      ⟨by decide, by decide,
        Or.inr ⟨[("error".data, Json.str "quota exceeded".data)],
          Json.str "quota exceeded".data, by decide, by decide, by decide, by decide⟩⟩
      (by decide)⟩

/-! ## Truthiness edge cases of the emission rule -/

/-- **C1 (counterexample).** A newline-delimited record that parses as
JSON and contains an `image_base64` field (the empty string) and a
numeric `index`, yet the decoder emits 0 events instead of 1: the code
tests JS truthiness of the payload, not presence of the field. -/
theorem empty_image_field_record_skipped :
    (parseJson "\x7b\"index\":0,\"image_base64\":\"\"\x7d".data).map (fun obj =>
      (getField obj imageKey, jsNumber (getField obj indexKey))) =
      some (some (Json.str []), some 0) ∧
    (runStream ["\x7b\"index\":0,\"image_base64\":\"\"\x7d\n".data]).events = [] ∧
    (runStream ["\x7b\"index\":0,\"image_base64\":\"\"\x7d\n".data]).error = none :=
  ⟨by decide, by decide, by decide⟩

/-- **C3 (counterexample).** Two violations of the claim as stated: a
present-but-empty `image_base64` emits no event at all, and a `null`
index coerces via `Number(null) = 0` to index `0`, not the sentinel
`-1`, although `null` is not a number. -/
theorem index_sentinel_counterexample :
    processLine "\x7b\"index\":0,\"image_base64\":\"\"\x7d".data = .ok none ∧
    processLine "\x7b\"index\":null,\"image_base64\":\"QQ==\"\x7d".data =
      .ok (some ⟨0, "QQ==".data⟩) ∧
    (parseJson "\x7b\"index\":null,\"image_base64\":\"QQ==\"\x7d".data).map
      (fun obj => getField obj indexKey) = some (some Json.null) :=
  ⟨by rfl, by rfl, by decide⟩

/-- **C3 (amended).** For every line parsing as a JSON object with
falsy-or-absent `error` field and *truthy* `image_base64` field, the
emitted event's index is `Number(payload.index)` when that coercion
yields a number, and the sentinel `-1` exactly when it yields NaN
(absent field, or a value like a non-numeric string; JS-coercible
non-numbers such as `null` contribute their coerced value instead). -/
theorem processLine_index_of_number
    (line : List Char) (obj : List (List Char × Json)) (v : Json)
    (hparse : parseJson line = some obj)
    (herr : getField obj errorKey = none ∨
      ∃ e, getField obj errorKey = some e ∧ truthy e = false)
    (himg : getField obj imageKey = some v)
    (htr : truthy v = true) :
    (∀ i : Int, jsNumber (getField obj indexKey) = some i →
      processLine line = .ok (some ⟨i, jsonToString v⟩)) ∧
    (jsNumber (getField obj indexKey) = none →
      processLine line = .ok (some ⟨-1, jsonToString v⟩)) := by
  have hout : processLine line = .ok (emitFromPayload obj) := by
    unfold processLine
    rw [if_neg (parseJson_some_not_blank hparse), hparse]
    dsimp only
    rcases herr with herr | ⟨e, herr, hf⟩
    · rw [herr]
    · rw [herr]
      dsimp only
      simp [hf]
  constructor
  · intro i hi
    rw [hout]
    unfold emitFromPayload
    rw [himg, hi]
    dsimp only
    rw [if_pos htr]
    rfl
  · intro hi
    rw [hout]
    unfold emitFromPayload
    rw [himg, hi]
    dsimp only
    rw [if_pos htr]
    rfl

/-- Closed instances of the amended C3: a numeric index is kept, an
absent index falls back to `-1`. -/
theorem processLine_index_of_number_witness :
    processLine "\x7b\"index\":4,\"image_base64\":\"QQ==\"\x7d".data =
      .ok (some ⟨4, "QQ==".data⟩) ∧
    processLine "\x7b\"image_base64\":\"QQ==\"\x7d".data =
      .ok (some ⟨-1, "QQ==".data⟩) :=
  ⟨(processLine_index_of_number "\x7b\"index\":4,\"image_base64\":\"QQ==\"\x7d".data
      [("index".data, Json.num 4), ("image_base64".data, Json.str "QQ==".data)]
      (Json.str "QQ==".data) (by decide) (Or.inl (by decide)) (by decide)
      (by decide)).1 4 (by decide),
   (processLine_index_of_number "\x7b\"image_base64\":\"QQ==\"\x7d".data
      [("image_base64".data, Json.str "QQ==".data)]
      (Json.str "QQ==".data) (by decide) (Or.inl (by decide)) (by decide)
      (by decide)).2 (by decide)⟩

/-! ## Result collection and ordered display -/

/-- One displayable result: the record index and the image source handle
(object URL or data URL). -/
structure ResultItem where
  index : Int
  imageSrc : List Char
deriving DecidableEq, Repr

/-- `appendResult` (App.jsx 233–235): push one result onto the
insertion-ordered collection. -/
def appendResult (results : List ResultItem) (index : Int) (imageSrc : List Char) :
    List ResultItem :=
  results ++ [⟨index, imageSrc⟩]

/-- The order imposed by the comparator `(a, b) => a.index - b.index`. -/
def byIndex (a b : ResultItem) : Prop := a.index ≤ b.index

instance : DecidableRel byIndex :=
  fun a b => inferInstanceAs (Decidable (a.index ≤ b.index))

instance : IsTotal ResultItem byIndex := ⟨fun a b => Int.le_total a.index b.index⟩

instance : IsTrans ResultItem byIndex := ⟨fun _ _ _ h1 h2 => le_trans h1 h2⟩

/-- `orderedResults` (App.jsx 371–374):
`[...results].sort((a, b) => a.index - b.index)`.  `Array.prototype.sort`
is a stable sort and the numeric comparator orders ascending by `index`;
the stable ascending sort is modelled by insertion sort. -/
def orderedResults (results : List ResultItem) : List ResultItem :=
  results.insertionSort byIndex

/-- **C4.** Whatever the arrival order, the displayed sequence is the
accumulated results sorted ascending by `index`; in particular arrivals
with indices 1, 0, 2 display as 0, 1, 2. -/
theorem display_sorted_by_index :
    (∀ results : List ResultItem,
      (orderedResults results).Pairwise byIndex ∧
      (orderedResults results).Perm results) ∧
    orderedResults (appendResult (appendResult (appendResult [] 1 "QQ==".data)
        0 "Qg==".data) 2 "Qw==".data) =
      [⟨0, "Qg==".data⟩, ⟨1, "QQ==".data⟩, ⟨2, "Qw==".data⟩] :=
  ⟨fun results => ⟨List.sorted_insertionSort byIndex results,
      List.perm_insertionSort byIndex results⟩,
    by decide⟩

/-! ## Request dispatcher -/

/-- A JS number as held in the `count` state: an integer, or NaN when a
non-numeric input was coerced with `Number`. -/
inductive JsNum where
  | nan
  | int (n : Int)
deriving DecidableEq, Repr

/-- JS strict equality `===` on numbers: NaN compares unequal to
everything, including itself. -/
def jsStrictEq : JsNum → JsNum → Bool
  | .int a, .int b => a == b
  | _, _ => false

/-- Transport endpoints of the wire contract. -/
inductive Endpoint where
  | hairstyle
  | hairstylesStream
deriving DecidableEq, Repr

/-- The dispatch in `handleSubmit` (App.jsx 356–361): `count === 1`
issues the single non-streaming POST to `/hairstyle`, anything else the
streaming POST to `/hairstyles/stream`. -/
def chooseEndpoint (count : JsNum) : Endpoint :=
  if jsStrictEq count (.int 1) then .hairstyle else .hairstylesStream

/-- The response to the single non-streaming request. -/
structure HttpResponse where
  ok : Bool
  status : Nat
  body : List Char
deriving DecidableEq, Repr

/-- The generic message `Request failed with status ${response.status}`. -/
def genericStatusMsg (status : Nat) : List Char :=
  "Request failed with status ".data ++ (toString status).data

/-- `fetchSingleResult` (App.jsx 237–253): a non-2xx response throws the
body text, or the generic status message when the body is empty
(`errorText || ...` tests JS truthiness, i.e. nonemptiness); a 2xx
response appends exactly one result with index 0 whose image handle is
the entire body (the object URL is modelled by the body itself). -/
def fetchSingleResult (resp : HttpResponse) : Except (List Char) (List ResultItem) :=
  if resp.ok then .ok (appendResult [] 0 resp.body)
  else .error (if resp.body = [] then genericStatusMsg resp.status else resp.body)

/-- **C7.** Count 1 dispatches one non-streaming request to
`/hairstyle`; a 2xx response yields exactly one ResultItem with index 0
carrying the whole body; a non-2xx response yields no ResultItem and
fails with the body text, or the generic status message when the body is
empty. -/
theorem single_request_dispatch :
    chooseEndpoint (.int 1) = .hairstyle ∧
    (∀ resp : HttpResponse, resp.ok = true →
      fetchSingleResult resp = .ok [⟨0, resp.body⟩]) ∧
    (∀ resp : HttpResponse, resp.ok = false → resp.body ≠ [] →
      fetchSingleResult resp = .error resp.body) ∧
    (∀ resp : HttpResponse, resp.ok = false → resp.body = [] →
      fetchSingleResult resp = .error (genericStatusMsg resp.status)) := by
  refine ⟨rfl, ?_, ?_, ?_⟩
  · intro resp hok
    unfold fetchSingleResult
    rw [if_pos hok]
    rfl
  · intro resp hok hne
    unfold fetchSingleResult
    rw [if_neg (by rw [hok]; exact Bool.false_ne_true), if_neg hne]
  · intro resp hok hnil
    unfold fetchSingleResult
    rw [if_neg (by rw [hok]; exact Bool.false_ne_true), if_pos hnil]

/-- Closed instances of C7: a 200 response with body, a 500 response
with an error body, and a 500 response with an empty body. -/
theorem single_request_dispatch_witness :
    fetchSingleResult ⟨true, 200, "PNGBYTES".data⟩ = .ok [⟨0, "PNGBYTES".data⟩] ∧
    fetchSingleResult ⟨false, 500, "boom".data⟩ = .error "boom".data ∧
    fetchSingleResult ⟨false, 500, []⟩ = .error (genericStatusMsg 500) :=
  ⟨single_request_dispatch.2.1 ⟨true, 200, "PNGBYTES".data⟩ rfl,
   single_request_dispatch.2.2.1 ⟨false, 500, "boom".data⟩ rfl (by decide),
   single_request_dispatch.2.2.2 ⟨false, 500, []⟩ rfl rfl⟩

/-- **C10.** The single-request branch is taken exactly when `count` is
strictly equal to 1; every other value — 0, negatives, other integers,
and NaN (a non-numeric input) — takes the streaming path. -/
theorem dispatch_streams_unless_count_is_one :
    (∀ count : JsNum, chooseEndpoint count = .hairstyle ↔ count = .int 1) ∧
    (∀ count : JsNum, count ≠ .int 1 →
      chooseEndpoint count = .hairstylesStream) ∧
    chooseEndpoint .nan = .hairstylesStream ∧
    chooseEndpoint (.int 0) = .hairstylesStream ∧
    chooseEndpoint (.int (-3)) = .hairstylesStream := by
  have hiff : ∀ count : JsNum, chooseEndpoint count = .hairstyle ↔ count = .int 1 := by
    intro count
    cases count with
    | nan => simp [chooseEndpoint, jsStrictEq]
    | int n =>
      unfold chooseEndpoint jsStrictEq
      by_cases hn : n = 1
      · subst hn
        simp
      · simp [hn]
  refine ⟨hiff, ?_, rfl, rfl, rfl⟩
  intro count hne
  cases hce : chooseEndpoint count with
  | hairstylesStream => rfl
  | hairstyle => exact absurd ((hiff count).mp hce) hne

/-- Closed instance of the C10 hypothesis-bearing part: NaN (a
non-numeric input) takes the streaming path. -/
theorem dispatch_streams_unless_count_is_one_witness :
    (JsNum.nan ≠ JsNum.int 1) ∧
    chooseEndpoint .nan = .hairstylesStream :=
  ⟨by decide, dispatch_streams_unless_count_is_one.2.1 .nan (by decide)⟩

/-- **C2 (counterexample).** A line carrying an `error` field whose value
is the empty string (JS-falsy): the decoder does not stop — it skips the
record (no image payload either) and keeps processing subsequent lines,
emitting their events with no surfaced error. -/
theorem falsy_error_field_not_propagated :
    (parseJson "\x7b\"error\":\"\"\x7d".data).map (fun obj => getField obj errorKey) =
      some (some (Json.str [])) ∧
    (runStream ["\x7b\"error\":\"\"\x7d\n\x7b\"index\":0,\"image_base64\":\"QQ==\"\x7d\n".data]).events =
      [⟨0, "QQ==".data⟩] ∧
    (runStream ["\x7b\"error\":\"\"\x7d\n\x7b\"index\":0,\"image_base64\":\"QQ==\"\x7d\n".data]).error =
      none :=
  ⟨by decide, by decide, by decide⟩
